import Mathlib

/-!
Verification of the lessanvil region-file compaction engine (`src/lib.rs`)
against its natural-language specification.

The development is a shallow embedding of the core library:

* `process_region_file` embeds the per-file keep/discard/truncate state
  machine of `fn process_region_file` in `lib.rs`.  The external `fastanvil`
  region codec and the `fastnbt` decoder are summarized at their interface:
  each of the 1024 grid slots of a region file carries a `SlotContent`
  recording what `read_chunk` followed by `fastnbt::from_bytes` would yield
  for that slot (empty, read error — which the `let Ok(Some(..)) else
  continue` in the source silently skips — or a populated payload together
  with its decode outcome).  Rust `usize`/`u16` counters are modelled as
  `Nat`; all values reachable here stay far below the machine-width bounds
  (per-file counters are at most 1024), so no wrap-around is modelled.
* `execute` embeds `pub fn execute`: the world-folder check, the
  one-shot global rayon pool construction, file enumeration and the pre-run
  directory-size sample.  Filesystem observations are summarized in an
  `Env` record holding the outcome each `std::fs` call would produce.
* `runThread` embeds the spawned worker thread: the `Starting` send, the
  rayon `try_for_each_with` loop with its atomic counters and
  send-failure-as-cancellation behaviour, and the final `Finished` send.
  Worker nondeterminism is captured by quantifying over the order in which
  per-file events reach the channel (a permutation of the input file list)
  and over the point at which the consumer disconnects (`closeAt` = number
  of events the consumer receives before the channel closes; `none` = the
  receiver is never dropped).
-/

namespace Lessanvil

/-- The decoded chunk record: the only field the engine inspects is the
`InhabitedTime` value (`struct Chunk` in `lib.rs`, in ticks). -/
structure Chunk where
  inhabited_time : Nat
deriving DecidableEq

/-- `enum RegionProcessingError` of `lib.rs`: the per-file error taxonomy
(I/O, anvil container format, NBT decode).  The wrapped error payloads are
external values the engine never inspects, so they are dropped. -/
inductive RegionProcessingError where
  | IOError
  | AnvilError
  | NBTError
deriving DecidableEq

/-- What the external codec yields for one grid slot of a region file:
`read_chunk` returns `Ok(None)` (empty), `Err(..)` (a read error, silently
skipped by the `let Ok(Some(chunk)) = .. else continue` in the source), or
`Ok(Some(bytes))` whose `fastnbt::from_bytes::<Chunk>` outcome is recorded
(`none` = decode failure, `some c` = the decoded record). -/
inductive SlotContent where
  | empty
  | readErr
  | populated (decoded : Option Chunk)
deriving DecidableEq

/-- A grid position inside a region file (the loop variables `x`, `y` of the
nested `for x in 0..32 { for y in 0..32 { .. } }`). -/
abbrev Pos := Nat × Nat

/-- `struct ProcessedRegion` of `lib.rs` (`u16` counters modelled as `Nat`;
they are bounded by the 1024 grid slots). -/
structure ProcessedRegion where
  x : Nat
  y : Nat
  total_chunks : Nat
  deleted_chunks : Nat
deriving DecidableEq

/-- One region file as `process_region_file` observes it through the
external interfaces: the coordinates parsed from its filename, whether
`File::options().open` succeeds, whether `Region::from_stream` succeeds,
the per-slot contents, and whether the final
`into_inner`/`stream_position`/`set_len` truncation chain fails (and with
which error class). -/
structure RegionFileModel where
  x : Nat
  y : Nat
  openOk : Bool
  parseOk : Bool
  slots : Pos → SlotContent
  finalizeErr : Option RegionProcessingError

/-- The mutable state of the slot loop in `process_region_file`: the region
contents (mutated by `remove_chunk`), the two counters, and the pending
early-return error (`?` on a failed `fastnbt::from_bytes`). -/
structure IterState where
  slots : Pos → SlotContent
  total_chunks : Nat
  deleted_chunks : Nat
  err : Option RegionProcessingError

/-- `region.remove_chunk(x, y)`: erases the payload and grid entry of one
slot, leaving every other slot untouched. -/
def removeAt (σ : Pos → SlotContent) (p : Pos) : Pos → SlotContent :=
  fun q => if q = p then SlotContent.empty else σ q

/-- One iteration of the slot loop of `process_region_file`: skip an empty
slot or a failed read, abort the file on a failed decode, otherwise count
the chunk and remove it when `chunk.inhabited_time <= man_inhabited_time / 20`. -/
def stepSlot (man_inhabited_time : Nat) (s : IterState) (p : Pos) : IterState :=
  match s.err with
  | some _ => s
  | none =>
    match s.slots p with
    | SlotContent.empty => s
    | SlotContent.readErr => s
    | SlotContent.populated none => { s with err := some RegionProcessingError.NBTError }
    | SlotContent.populated (some c) =>
      if c.inhabited_time ≤ man_inhabited_time / 20 then
        { s with slots := removeAt s.slots p
               , total_chunks := s.total_chunks + 1
               , deleted_chunks := s.deleted_chunks + 1 }
      else
        { s with total_chunks := s.total_chunks + 1 }

/-- The raster order of the nested loops `for x in 0..32 { for y in 0..32 }`. -/
def slotOrder : List Pos :=
  (List.range 32).flatMap fun x => (List.range 32).map fun y => (x, y)

/-- The complete outcome of one `process_region_file` call: the returned
`Result`, the region contents left on disk, and whether the truncation step
(`set_len`) was reached. -/
structure RunOutcome where
  result : Except RegionProcessingError ProcessedRegion
  slots : Pos → SlotContent
  truncated : Bool

/-- The state left by the nested slot loop of `process_region_file` (the
`s` the loop builds from the initial `(f.slots, 0, 0)` state). -/
def sweepRegion (σ : Pos → SlotContent) (man_inhabited_time : Nat) : IterState :=
  slotOrder.foldl (stepSlot man_inhabited_time) ⟨σ, 0, 0, none⟩

/-- The tail of `process_region_file` after the slot loop: surface a
pending loop error, otherwise run the `into_inner`/`stream_position`/
`set_len` truncation chain and assemble the `ProcessedRegion`. -/
def finishRegion (f : RegionFileModel) (s : IterState) : RunOutcome :=
  match s.err with
  | some e => ⟨Except.error e, s.slots, false⟩
  | none =>
    match f.finalizeErr with
    | some e => ⟨Except.error e, s.slots, false⟩
    | none => ⟨Except.ok ⟨f.x, f.y, s.total_chunks, s.deleted_chunks⟩, s.slots, true⟩

/-- `fn process_region_file` of `lib.rs`: open the file (I/O error),
parse the container (anvil error), sweep the 1024 slots in raster order
removing every chunk whose `inhabited_time` is at most
`man_inhabited_time / 20` (a decode failure aborts the file with an NBT
error, leaving earlier removals in place and skipping truncation), then
truncate the file to its live length. -/
def process_region_file (f : RegionFileModel) (man_inhabited_time : Nat) : RunOutcome :=
  if f.openOk = false then ⟨Except.error RegionProcessingError.IOError, f.slots, false⟩
  else if f.parseOk = false then ⟨Except.error RegionProcessingError.AnvilError, f.slots, false⟩
  else finishRegion f (sweepRegion f.slots man_inhabited_time)

/-- The threshold the comparison in `process_region_file` actually uses:
the `man_inhabited_time` argument integer-divided by 20. -/
def effective_threshold (man_inhabited_time : Nat) : Nat := man_inhabited_time / 20

/-- A slot holds chunk data (`read_chunk` returned `Ok(Some(..))`). -/
def SlotContent.isPop : SlotContent → Bool
  | SlotContent.populated _ => true
  | _ => false

/-- A populated slot whose payload fails to decode (`from_bytes` errors). -/
def SlotContent.isBad : SlotContent → Bool
  | SlotContent.populated none => true
  | _ => false

/-- A populated slot whose payload decodes successfully. -/
def SlotContent.isPopSome : SlotContent → Bool
  | SlotContent.populated (some _) => true
  | _ => false

/-- A slot the sweep removes: populated, decodable, and with
`inhabited_time` at most the effective threshold. -/
def removable (man_inhabited_time : Nat) : SlotContent → Bool
  | SlotContent.populated (some c) => decide (c.inhabited_time ≤ man_inhabited_time / 20)
  | _ => false

/-- The region contents after sweeping the positions of `pre`: every
removable slot among them is erased, everything else is untouched. -/
def sweepSlots (man_inhabited_time : Nat) (σ : Pos → SlotContent) (pre : List Pos) :
    Pos → SlotContent :=
  fun q => if q ∈ pre ∧ removable man_inhabited_time (σ q) = true then SlotContent.empty else σ q

/-- `enum Error` of `lib.rs`: errors of the run entry point, raised before
any processing starts. -/
inductive Error where
  | WorldFolderNotFound
  | IOError
  | RayonError
deriving DecidableEq

/-- `struct Config` of `lib.rs`.  The `world_folder` path itself only
matters through the filesystem observations collected in `Env`, so it is
not represented; `max_inhabited_time` and `thread_count` are kept. -/
structure Config where
  max_inhabited_time : Nat
  thread_count : Nat

/-- `struct Report` of `lib.rs` (`time_taken` is the opaque wall-clock
duration, modelled as a `Nat` supplied by the schedule). -/
structure Report where
  time_taken : Nat
  total_freed_space : Nat
  total_regions : Nat
  total_chunks : Nat
  total_deleted_chunks : Nat
deriving DecidableEq

instance : DecidableEq (Except RegionProcessingError ProcessedRegion) := fun a b =>
  match a, b with
  | Except.ok x, Except.ok y =>
    if h : x = y then isTrue (by rw [h]) else isFalse (by intro hc; cases hc; exact h rfl)
  | Except.error x, Except.error y =>
    if h : x = y then isTrue (by rw [h]) else isFalse (by intro hc; cases hc; exact h rfl)
  | Except.ok _, Except.error _ => isFalse (by intro hc; cases hc)
  | Except.error _, Except.ok _ => isFalse (by intro hc; cases hc)

/-- `enum ProcessingUpdate` of `lib.rs`: the three event kinds carried by
the mpsc channel. -/
inductive ProcessingUpdate where
  | Starting (total_files : Nat)
  | ProcessedRegion (r : Except RegionProcessingError ProcessedRegion)
  | Finished (report : Report)
deriving DecidableEq

/-- The filesystem and process-global state `execute` observes: whether
`world_folder.try_exists()` reports the folder present, whether the
process-global rayon pool has already been built, the outcome of
`collect_region_files` (an I/O error or the enumerated region files), and
the outcomes of the two `dir_size` samples (`none` = the recursive walk
fails with an I/O error). -/
structure Env where
  world_exists : Bool
  pool_built : Bool
  collect_result : Except Unit (List RegionFileModel)
  dir_size_before : Option Nat
  dir_size_after : Option Nat

/-- What a successful `execute` hands to the spawned worker thread: the
enumerated files and the pre-run directory size it captured. -/
structure RunHandle where
  files : List RegionFileModel
  size_before : Nat

/-- `pub fn execute` of `lib.rs` up to the `thread::spawn`: fail with
`WorldFolderNotFound` if the world folder is absent, build the global
rayon pool (which fails with `RayonError` when the process-global pool
already exists, and marks it built otherwise), enumerate the region files
(`?` turns an enumeration I/O failure into `Error::IOError`), and take the
pre-run `dir_size` sample (whose failure is likewise propagated by `?`).
The spawned thread itself is `runThread` below. -/
def execute (env : Env) (_config : Config) : Except Error RunHandle × Env :=
  if env.world_exists = false then (Except.error Error.WorldFolderNotFound, env)
  else if env.pool_built = true then (Except.error Error.RayonError, env)
  else
    let env' : Env := { env with pool_built := true }
    match env.collect_result with
    | Except.error _ => (Except.error Error.IOError, env')
    | Except.ok files =>
      match env.dir_size_before with
      | none => (Except.error Error.IOError, env')
      | some sb => (Except.ok ⟨files, sb⟩, env')

/-- Whether a send on the mpsc channel succeeds when `k` events have
already been delivered: the consumer disconnects after receiving `closeAt`
events (`none` = the receiver is never dropped). -/
def sendOk (closeAt : Option Nat) (k : Nat) : Bool :=
  match closeAt with
  | none => true
  | some c => decide (k < c)

/-- The nondeterminism of one run: the order in which the rayon workers
deliver per-file events (a permutation of the input list), the point at
which the consumer disconnects, and the opaque elapsed wall-clock time. -/
structure Sched where
  order : List RegionFileModel
  closeAt : Option Nat
  elapsed : Nat

/-- The `try_for_each_with` loop body of `execute`, sequentialized along
the delivery order: process a file, add a successful result to the two
atomic totals (a `fetch_add` that happens before the send, so a file whose
send fails is still counted), then send the `ProcessedRegion` event; a
failed send returns `Err(())`, which stops the loop.  Returns the
delivered events, whether the loop finished without a failed send, and the
final totals. -/
def processLoop (t : Nat) (closeAt : Option Nat) :
    List RegionFileModel → Nat → Nat → Nat → List ProcessingUpdate × Bool × Nat × Nat
  | [], _, tot, del => ([], true, tot, del)
  | f :: rest, k, tot, del =>
    let res := (process_region_file f t).result
    let tot' := match res with | Except.ok pr => tot + pr.total_chunks | Except.error _ => tot
    let del' := match res with | Except.ok pr => del + pr.deleted_chunks | Except.error _ => del
    if sendOk closeAt k then
      let out := processLoop t closeAt rest (k + 1) tot' del'
      (ProcessingUpdate.ProcessedRegion res :: out.1, out.2)
    else ([], false, tot', del')

/-- The observable behaviour of one spawned worker run: the events
delivered through the channel, and whether the thread reached the final
`tx.send(ProcessingUpdate::Finished(..))` (it does so exactly when the
rayon loop returned `Ok`, i.e. no `ProcessedRegion` send failed; the
result of that last send is itself discarded by the source). -/
structure ExecTrace where
  events : List ProcessingUpdate
  finished_attempted : Bool

/-- The `let _ = tx.send(ProcessingUpdate::Starting { .. })` of the worker
thread: the event reaches the consumer only when the channel is still open
(the send result itself is discarded by the source either way). -/
def startEvents (delivered : Bool) (total : Nat) : List ProcessingUpdate :=
  if delivered then [ProcessingUpdate.Starting total] else []

/-- The tail of the worker thread after the rayon loop: when the loop
returned `Ok` (no send failed), take the post-run `dir_size` sample
(`unwrap_or(0)`), assemble the `Report` from the atomic totals, and send
`Finished` (delivered only if the channel is still open after the
`startEvs.length + out.1.length` events already received). -/
def mkTrace (h : RunHandle) (dir_size_after : Option Nat) (s : Sched)
    (startEvs : List ProcessingUpdate)
    (out : List ProcessingUpdate × Bool × Nat × Nat) : ExecTrace :=
  if out.2.1 then
    ⟨startEvs ++ out.1 ++
      (if sendOk s.closeAt (startEvs.length + out.1.length) then
        [ProcessingUpdate.Finished ⟨s.elapsed, h.size_before - (dir_size_after.getD 0),
          h.files.length, out.2.2.1, out.2.2.2⟩]
      else []), true⟩
  else ⟨startEvs ++ out.1, false⟩

/-- The closure passed to `thread::spawn` in `execute`: send `Starting`
(result ignored), run the parallel loop over the files with threshold
`config.max_inhabited_time * 20` starting from zeroed atomic totals, and
finish with `mkTrace` above. -/
def runThread (h : RunHandle) (config : Config) (dir_size_after : Option Nat)
    (s : Sched) : ExecTrace :=
  mkTrace h dir_size_after s (startEvents (sendOk s.closeAt 0) h.files.length)
    (processLoop (config.max_inhabited_time * 20) s.closeAt s.order
      (if sendOk s.closeAt 0 then 1 else 0) 0 0)

/-- An event is a `ProcessedRegion` event. -/
def isPR : ProcessingUpdate → Bool
  | ProcessingUpdate.ProcessedRegion _ => true
  | _ => false

/-- The `total_chunks` contribution an event carries: the per-region count
of a successful `ProcessedRegion` event, `0` otherwise. -/
def eventChunks : ProcessingUpdate → Nat
  | ProcessingUpdate.ProcessedRegion (Except.ok pr) => pr.total_chunks
  | _ => 0

/-- The `deleted_chunks` contribution an event carries. -/
def eventDeleted : ProcessingUpdate → Nat
  | ProcessingUpdate.ProcessedRegion (Except.ok pr) => pr.deleted_chunks
  | _ => 0

/-- Sum of the per-region `total_chunks` values carried by the successful
`ProcessedRegion` events of a trace. -/
def sumChunks (evs : List ProcessingUpdate) : Nat := (evs.map eventChunks).sum

/-- Sum of the per-region `deleted_chunks` values carried by the successful
`ProcessedRegion` events of a trace. -/
def sumDeleted (evs : List ProcessingUpdate) : Nat := (evs.map eventDeleted).sum

/-- The `total_chunks` a file contributes to the atomic totals: its
per-region count when processing succeeds, `0` when it fails. -/
def resChunks (t : Nat) (f : RegionFileModel) : Nat :=
  match (process_region_file f t).result with
  | Except.ok pr => pr.total_chunks
  | Except.error _ => 0

/-- The `deleted_chunks` a file contributes to the atomic totals. -/
def resDeleted (t : Nat) (f : RegionFileModel) : Nat :=
  match (process_region_file f t).result with
  | Except.ok pr => pr.deleted_chunks
  | Except.error _ => 0

/-- Sum of `resChunks` over a list of files. -/
def sumChunksList (t : Nat) (files : List RegionFileModel) : Nat :=
  (files.map (resChunks t)).sum

/-- Sum of `resDeleted` over a list of files. -/
def sumDelList (t : Nat) (files : List RegionFileModel) : Nat :=
  (files.map (resDeleted t)).sum

/-- A region file reopened after a successful compaction run: same
coordinates, the swept contents left on disk by the first run, and clean
open/parse/truncation outcomes. -/
def compacted (f : RegionFileModel) (man_inhabited_time : Nat) : RegionFileModel :=
  ⟨f.x, f.y, true, true, (process_region_file f man_inhabited_time).slots, none⟩

/-! ### Concrete instances used by the witnesses -/

/-- A configuration with `max_inhabited_time = 5` and four threads. -/
def cfgW : Config := ⟨5, 4⟩

/-- A region file with two populated chunks, presence times 5 and 6. -/
def fA : RegionFileModel :=
  { x := 3, y := 4, openOk := true, parseOk := true,
    slots := fun p =>
      if p = (0, 0) then SlotContent.populated (some ⟨5⟩)
      else if p = (0, 1) then SlotContent.populated (some ⟨6⟩)
      else SlotContent.empty,
    finalizeErr := none }

/-- A region file whose `File::open` fails. -/
def fErr : RegionFileModel :=
  { x := 0, y := 0, openOk := false, parseOk := true,
    slots := fun _ => SlotContent.empty, finalizeErr := none }

/-- A region file with a removable chunk at `(0,0)` and an undecodable
payload at `(0,5)`. -/
def fBad : RegionFileModel :=
  { x := 1, y := 2, openOk := true, parseOk := true,
    slots := fun p =>
      if p = (0, 0) then SlotContent.populated (some ⟨0⟩)
      else if p = (0, 5) then SlotContent.populated none
      else SlotContent.empty,
    finalizeErr := none }

/-- A region file holding one chunk whose `InhabitedTime` is 20 ticks. -/
def c2file : RegionFileModel :=
  { x := 0, y := 0, openOk := true, parseOk := true,
    slots := fun p =>
      if p = (0, 0) then SlotContent.populated (some ⟨20⟩) else SlotContent.empty,
    finalizeErr := none }

/-- A healthy environment: world present, pool not yet built, enumeration
finds no files, both size samples succeed. -/
def envOk : Env := ⟨true, false, Except.ok [], some 0, some 0⟩

/-- An environment whose world root folder does not exist. -/
def envMissing : Env := ⟨false, false, Except.ok [], some 0, some 0⟩

/-- An environment where the world exists but both recursive `dir_size`
walks fail with an I/O error. -/
def envSampleFail : Env := ⟨true, false, Except.ok [], none, none⟩

/-! ### List helper lemmas -/

theorem mem_of_mem_takeWhile {α : Type} {f : α → Bool} {L : List α} {x : α}
    (h : x ∈ L.takeWhile f) : x ∈ L := by
  induction L with
  | nil => simp at h
  | cons a L ih =>
    rw [List.takeWhile_cons] at h
    by_cases hfa : f a = true
    · rw [if_pos hfa] at h
      rcases List.mem_cons.mp h with h | h
      · exact h ▸ List.mem_cons_self a L
      · exact List.mem_cons_of_mem _ (ih h)
    · rw [if_neg hfa] at h
      simp at h

theorem countP_congr_mem {α : Type} {p q : α → Bool} {L : List α}
    (h : ∀ x ∈ L, p x = q x) : L.countP p = L.countP q := by
  induction L with
  | nil => rfl
  | cons a L ih =>
    rw [List.countP_cons, List.countP_cons, h a (List.mem_cons_self a L),
      ih fun x hx => h x (List.mem_cons_of_mem _ hx)]

theorem takeWhile_congr_mem {α : Type} {f g : α → Bool} {L : List α}
    (h : ∀ x ∈ L, f x = g x) : L.takeWhile f = L.takeWhile g := by
  induction L with
  | nil => rfl
  | cons a L ih =>
    rw [List.takeWhile_cons, List.takeWhile_cons, h a (List.mem_cons_self a L),
      ih fun x hx => h x (List.mem_cons_of_mem _ hx)]

theorem takeWhile_length_eq_iff {α : Type} {f : α → Bool} {L : List α} :
    (L.takeWhile f).length = L.length ↔ ∀ x ∈ L, f x = true := by
  induction L with
  | nil => simp
  | cons a L ih =>
    rw [List.takeWhile_cons]
    by_cases hfa : f a = true
    · rw [if_pos hfa]
      simp [hfa, ih]
    · rw [if_neg hfa]
      simp only [List.length_nil, List.length_cons]
      constructor
      · intro h0
        exact absurd h0 (by omega)
      · intro hall
        exact absurd (hall a (List.mem_cons_self a L)) hfa

/-! ### The slot sweep in closed form -/

theorem foldl_stepSlot_err (t : Nat) (e : RegionProcessingError) :
    ∀ (L : List Pos) (σ : Pos → SlotContent) (tc dc : Nat),
      L.foldl (stepSlot t) ⟨σ, tc, dc, some e⟩ = ⟨σ, tc, dc, some e⟩ := by
  intro L
  induction L with
  | nil => intro σ tc dc; rfl
  | cons p L ih =>
    intro σ tc dc
    rw [List.foldl_cons]
    have hstep : stepSlot t ⟨σ, tc, dc, some e⟩ p = ⟨σ, tc, dc, some e⟩ := rfl
    rw [hstep, ih]

theorem sweepSlots_nil (t : Nat) (σ : Pos → SlotContent) : sweepSlots t σ [] = σ := by
  funext q
  simp [sweepSlots]

theorem sweepSlots_cons_of_not_removable {t : Nat} {σ : Pos → SlotContent} {p : Pos}
    {pre : List Pos} (h : removable t (σ p) = false) :
    sweepSlots t σ (p :: pre) = sweepSlots t σ pre := by
  funext q
  by_cases hqp : q = p
  · subst hqp
    simp [sweepSlots, h]
  · simp [sweepSlots, List.mem_cons, hqp]

theorem sweepSlots_cons_of_removable {t : Nat} {σ : Pos → SlotContent} {p : Pos}
    {pre : List Pos} (hrem : removable t (σ p) = true) (hp : p ∉ pre) :
    sweepSlots t (removeAt σ p) pre = sweepSlots t σ (p :: pre) := by
  funext q
  by_cases hqp : q = p
  · subst hqp
    show (if q ∈ pre ∧ removable t (removeAt σ q q) = true then SlotContent.empty
          else removeAt σ q q) = _
    rw [if_neg fun hc => hp hc.1]
    have h1 : removeAt σ q q = SlotContent.empty := by simp [removeAt]
    rw [h1]
    show _ = (if q ∈ q :: pre ∧ removable t (σ q) = true then SlotContent.empty else σ q)
    rw [if_pos ⟨List.mem_cons_self q pre, hrem⟩]
  · have h1 : removeAt σ p q = σ q := if_neg hqp
    simp [sweepSlots, h1, List.mem_cons, hqp]

theorem foldl_stepSlot_closed (t : Nat) :
    ∀ (L : List Pos), L.Nodup → ∀ (σ : Pos → SlotContent) (tc dc : Nat),
      L.foldl (stepSlot t) ⟨σ, tc, dc, none⟩ =
        ⟨sweepSlots t σ (L.takeWhile fun p => !(σ p).isBad),
         tc + (L.takeWhile fun p => !(σ p).isBad).countP (fun p => (σ p).isPopSome),
         dc + (L.takeWhile fun p => !(σ p).isBad).countP (fun p => removable t (σ p)),
         if (L.takeWhile fun p => !(σ p).isBad).length = L.length then none
         else some RegionProcessingError.NBTError⟩ := by
  intro L
  induction L with
  | nil =>
    intro _ σ tc dc
    simp [sweepSlots_nil]
  | cons p L ih =>
    intro hnd σ tc dc
    obtain ⟨hpL, hndL⟩ := List.nodup_cons.mp hnd
    rw [List.foldl_cons]
    rcases hσp : σ p with _ | _ | d
    · -- empty slot: skipped
      have hstep : stepSlot t ⟨σ, tc, dc, none⟩ p = ⟨σ, tc, dc, none⟩ := by
        simp [stepSlot, hσp]
      rw [hstep, ih hndL σ tc dc]
      have hpred : (!(σ p).isBad) = true := by simp [hσp, SlotContent.isBad]
      rw [List.takeWhile_cons, if_pos hpred]
      have hrem : removable t (σ p) = false := by simp [removable, hσp]
      have hnp : ¬ ((σ p).isPopSome = true) := by simp [hσp, SlotContent.isPopSome]
      simp only [IterState.mk.injEq]
      refine ⟨?_, ?_, ?_, ?_⟩
      · rw [sweepSlots_cons_of_not_removable hrem]
      · rw [List.countP_cons_of_neg (fun q => (σ q).isPopSome) _ hnp]
      · rw [List.countP_cons_of_neg (fun q => removable t (σ q)) _ (by simp [hrem])]
      · simp only [List.length_cons]
        exact if_congr (by omega) rfl rfl
    · -- read error: skipped by the let-else
      have hstep : stepSlot t ⟨σ, tc, dc, none⟩ p = ⟨σ, tc, dc, none⟩ := by
        simp [stepSlot, hσp]
      rw [hstep, ih hndL σ tc dc]
      have hpred : (!(σ p).isBad) = true := by simp [hσp, SlotContent.isBad]
      rw [List.takeWhile_cons, if_pos hpred]
      have hrem : removable t (σ p) = false := by simp [removable, hσp]
      have hnp : ¬ ((σ p).isPopSome = true) := by simp [hσp, SlotContent.isPopSome]
      simp only [IterState.mk.injEq]
      refine ⟨?_, ?_, ?_, ?_⟩
      · rw [sweepSlots_cons_of_not_removable hrem]
      · rw [List.countP_cons_of_neg (fun q => (σ q).isPopSome) _ hnp]
      · rw [List.countP_cons_of_neg (fun q => removable t (σ q)) _ (by simp [hrem])]
      · simp only [List.length_cons]
        exact if_congr (by omega) rfl rfl
    · rcases d with _ | c
      · -- populated slot whose payload fails to decode: abort the file
        have hstep : stepSlot t ⟨σ, tc, dc, none⟩ p =
            ⟨σ, tc, dc, some RegionProcessingError.NBTError⟩ := by
          simp [stepSlot, hσp]
        rw [hstep, foldl_stepSlot_err]
        have hpred : (!(σ p).isBad) = false := by simp [hσp, SlotContent.isBad]
        rw [List.takeWhile_cons, if_neg (by simp [hpred])]
        simp only [IterState.mk.injEq]
        refine ⟨?_, by simp, by simp, ?_⟩
        · rw [sweepSlots_nil]
        · have hlen : ¬ ((List.length ([] : List Pos)) = (p :: L).length) := by simp
          rw [if_neg hlen]
      · -- populated, decodable slot
        by_cases hle : c.inhabited_time ≤ t / 20
        · -- removed
          have hstep : stepSlot t ⟨σ, tc, dc, none⟩ p =
              ⟨removeAt σ p, tc + 1, dc + 1, none⟩ := by
            simp [stepSlot, hσp, hle]
          rw [hstep, ih hndL (removeAt σ p) (tc + 1) (dc + 1)]
          have hσ1 : ∀ q ∈ L, removeAt σ p q = σ q := by
            intro q hq
            have hqp : q ≠ p := fun h => hpL (h ▸ hq)
            show (if q = p then SlotContent.empty else σ q) = σ q
            exact if_neg hqp
          have htw : (L.takeWhile fun q => !((removeAt σ p) q).isBad) =
              (L.takeWhile fun q => !(σ q).isBad) :=
            takeWhile_congr_mem fun q hq => by rw [hσ1 q hq]
          have hpred : (!(σ p).isBad) = true := by simp [hσp, SlotContent.isBad]
          rw [htw, List.takeWhile_cons, if_pos hpred]
          have hrem : removable t (σ p) = true := by simp [removable, hσp, hle]
          have hpPre : p ∉ L.takeWhile fun q => !(σ q).isBad :=
            fun hc => hpL (mem_of_mem_takeWhile hc)
          have hps : (σ p).isPopSome = true := by simp [hσp, SlotContent.isPopSome]
          simp only [IterState.mk.injEq]
          refine ⟨?_, ?_, ?_, ?_⟩
          · exact sweepSlots_cons_of_removable hrem hpPre
          · rw [countP_congr_mem fun q hq =>
              (by rw [hσ1 q (mem_of_mem_takeWhile hq)] :
                ((removeAt σ p) q).isPopSome = (σ q).isPopSome)]
            rw [List.countP_cons_of_pos (fun q => (σ q).isPopSome) _ hps]
            omega
          · rw [countP_congr_mem fun q hq =>
              (by rw [hσ1 q (mem_of_mem_takeWhile hq)] :
                removable t ((removeAt σ p) q) = removable t (σ q))]
            rw [List.countP_cons_of_pos (fun q => removable t (σ q)) _ hrem]
            omega
          · simp only [List.length_cons]
            exact if_congr (by omega) rfl rfl
        · -- kept
          have hstep : stepSlot t ⟨σ, tc, dc, none⟩ p = ⟨σ, tc + 1, dc, none⟩ := by
            simp [stepSlot, hσp, hle]
          rw [hstep, ih hndL σ (tc + 1) dc]
          have hpred : (!(σ p).isBad) = true := by simp [hσp, SlotContent.isBad]
          rw [List.takeWhile_cons, if_pos hpred]
          have hrem : removable t (σ p) = false := by simp [removable, hσp, hle]
          have hps : (σ p).isPopSome = true := by simp [hσp, SlotContent.isPopSome]
          simp only [IterState.mk.injEq]
          refine ⟨?_, ?_, ?_, ?_⟩
          · rw [sweepSlots_cons_of_not_removable hrem]
          · rw [List.countP_cons_of_pos (fun q => (σ q).isPopSome) _ hps]
            omega
          · rw [List.countP_cons_of_neg (fun q => removable t (σ q)) _ (by simp [hrem])]
          · simp only [List.length_cons]
            exact if_congr (by omega) rfl rfl

theorem slotOrder_nodup : slotOrder.Nodup := by
  unfold slotOrder
  rw [List.nodup_flatMap]
  constructor
  · intro x _
    exact List.Nodup.map (fun a b h => congrArg Prod.snd h) (List.nodup_range 32)
  · refine List.Pairwise.imp ?_ (List.nodup_range 32)
    intro a b hab z hza hzb
    obtain ⟨y1, _, hz1⟩ := List.mem_map.mp hza
    obtain ⟨y2, _, hz2⟩ := List.mem_map.mp hzb
    exact hab (congrArg Prod.fst (hz1.trans hz2.symm))

theorem isPopSome_eq_isPop_of_not_bad {c : SlotContent} (h : c.isBad = false) :
    c.isPopSome = c.isPop := by
  rcases c with _ | _ | d
  · rfl
  · rfl
  · rcases d with _ | c
    · simp [SlotContent.isBad] at h
    · rfl

theorem sweepSlots_eq_empty_iff {t : Nat} {σ : Pos → SlotContent} {pre : List Pos} {q : Pos}
    (hq : q ∈ pre) :
    sweepSlots t σ pre q = SlotContent.empty ↔
      (σ q = SlotContent.empty ∨ removable t (σ q) = true) := by
  by_cases hrem : removable t (σ q) = true
  · simp [sweepSlots, hq, hrem]
  · simp [sweepSlots, hrem]

/-- The slot loop state in closed form, specialized to the full raster
order sweep of `process_region_file`. -/
theorem sweepRegion_eq (σ : Pos → SlotContent) (t : Nat) :
    sweepRegion σ t =
      ⟨sweepSlots t σ (slotOrder.takeWhile fun p => !(σ p).isBad),
       (slotOrder.takeWhile fun p => !(σ p).isBad).countP (fun p => (σ p).isPopSome),
       (slotOrder.takeWhile fun p => !(σ p).isBad).countP (fun p => removable t (σ p)),
       if (slotOrder.takeWhile fun p => !(σ p).isBad).length = slotOrder.length then none
       else some RegionProcessingError.NBTError⟩ := by
  have h := foldl_stepSlot_closed t slotOrder slotOrder_nodup σ 0 0
  rw [sweepRegion, h]
  simp only [Nat.zero_add]

/-- The slot loop state when no slot is undecodable: the sweep visits all
1024 slots and finishes without error. -/
theorem sweepRegion_eq_of_no_bad (σ : Pos → SlotContent) (t : Nat)
    (hnb : ∀ p ∈ slotOrder, (σ p).isBad = false) :
    sweepRegion σ t =
      ⟨sweepSlots t σ slotOrder,
       slotOrder.countP (fun p => (σ p).isPopSome),
       slotOrder.countP (fun p => removable t (σ p)), none⟩ := by
  have hful : slotOrder.takeWhile (fun p => !(σ p).isBad) = slotOrder :=
    List.takeWhile_eq_self_iff.mpr (by intro p hpm; simp [hnb p hpm])
  rw [sweepRegion_eq, hful, if_pos rfl]

set_option maxRecDepth 4000 in
/-- `process_region_file` on a file that opens and parses and has no
undecodable slot: the sweep visits all 1024 slots; the result is decided by
the truncation outcome. -/
theorem process_clean_char (f : RegionFileModel) (t : Nat)
    (ho : f.openOk = true) (hp : f.parseOk = true)
    (hnb : ∀ p ∈ slotOrder, (f.slots p).isBad = false) :
    process_region_file f t =
      ⟨match f.finalizeErr with
        | some e => Except.error e
        | none => Except.ok ⟨f.x, f.y,
            slotOrder.countP (fun p => (f.slots p).isPopSome),
            slotOrder.countP (fun p => removable t (f.slots p))⟩,
       sweepSlots t f.slots slotOrder, f.finalizeErr.isNone⟩ := by
  obtain ⟨x, y, op, pk, σ, fe⟩ := f
  dsimp only at ho hp hnb ⊢
  subst ho
  subst hp
  show finishRegion ⟨x, y, true, true, σ, fe⟩ (sweepRegion σ t) = _
  rw [sweepRegion_eq_of_no_bad σ t hnb]
  rcases fe with _ | e
  · rfl
  · rfl

set_option maxRecDepth 4000 in
/-- `process_region_file` on a file that opens and parses but has an
undecodable slot: the sweep stops at the first such slot, the file is
reported failed with an NBT error and is not truncated. -/
theorem process_bad_char (f : RegionFileModel) (t : Nat)
    (ho : f.openOk = true) (hp : f.parseOk = true)
    (hbad : ∃ p ∈ slotOrder, (f.slots p).isBad = true) :
    process_region_file f t =
      ⟨Except.error RegionProcessingError.NBTError,
       sweepSlots t f.slots (slotOrder.takeWhile fun p => !(f.slots p).isBad), false⟩ := by
  have hlen : ¬ ((slotOrder.takeWhile fun p => !(f.slots p).isBad).length = slotOrder.length) := by
    intro hlen
    have hall := takeWhile_length_eq_iff.mp hlen
    obtain ⟨p, hpm, hbp⟩ := hbad
    have := hall p hpm
    rw [hbp] at this
    simp at this
  obtain ⟨x, y, op, pk, σ, fe⟩ := f
  dsimp only at ho hp hlen ⊢
  subst ho
  subst hp
  show finishRegion ⟨x, y, true, true, σ, fe⟩ (sweepRegion σ t) = _
  rw [sweepRegion_eq, if_neg hlen]
  rfl

/-- Inversion of a successful `process_region_file` call: the file opened,
parsed, every populated slot decoded, the truncation ran, the counters are
the populated/removable slot counts, and the on-disk contents are the full
sweep. -/
theorem process_ok_inv (f : RegionFileModel) (t : Nat) (pr : ProcessedRegion)
    (h : (process_region_file f t).result = Except.ok pr) :
    f.openOk = true ∧ f.parseOk = true ∧ f.finalizeErr = none ∧
    (∀ p ∈ slotOrder, (f.slots p).isBad = false) ∧
    pr = ⟨f.x, f.y, slotOrder.countP (fun p => (f.slots p).isPopSome),
          slotOrder.countP (fun p => removable t (f.slots p))⟩ ∧
    (process_region_file f t).slots = sweepSlots t f.slots slotOrder ∧
    (process_region_file f t).truncated = true := by
  have ho : f.openOk = true := by
    rcases hb : f.openOk with _ | _
    · obtain ⟨x, y, op, pk, σ, fe⟩ := f
      dsimp only at hb
      subst hb
      exact Except.noConfusion (h : Except.error RegionProcessingError.IOError = Except.ok pr)
    · rfl
  have hp : f.parseOk = true := by
    rcases hb : f.parseOk with _ | _
    · obtain ⟨x, y, op, pk, σ, fe⟩ := f
      dsimp only at hb ho
      subst hb
      subst ho
      exact Except.noConfusion (h : Except.error RegionProcessingError.AnvilError = Except.ok pr)
    · rfl
  have hnb : ∀ p ∈ slotOrder, (f.slots p).isBad = false := by
    intro p hpm
    rcases hb : (f.slots p).isBad with _ | _
    · rfl
    · rw [process_bad_char f t ho hp ⟨p, hpm, hb⟩] at h
      exact Except.noConfusion (h : Except.error RegionProcessingError.NBTError = Except.ok pr)
  have hchar := process_clean_char f t ho hp hnb
  rcases hfe : f.finalizeErr with _ | e
  · rw [hfe] at hchar
    rw [hchar] at h
    have hpr : pr = ⟨f.x, f.y, slotOrder.countP (fun p => (f.slots p).isPopSome),
        slotOrder.countP (fun p => removable t (f.slots p))⟩ :=
      (Except.ok.inj (h : Except.ok _ = Except.ok pr)).symm
    refine ⟨ho, hp, rfl, hnb, hpr, ?_, ?_⟩
    · rw [hchar]
    · rw [hchar]
      rfl
  · rw [hfe] at hchar
    rw [hchar] at h
    exact Except.noConfusion (h : Except.error e = Except.ok pr)

/-! ### The worker loop and the event trace -/

theorem processLoop_ok_char (t : Nat) (closeAt : Option Nat) :
    ∀ (order : List RegionFileModel) (k tot del : Nat),
      (processLoop t closeAt order k tot del).2.1 = true →
      processLoop t closeAt order k tot del =
        ((order.map fun f => ProcessingUpdate.ProcessedRegion (process_region_file f t).result),
         true, tot + sumChunksList t order, del + sumDelList t order) := by
  intro order
  induction order with
  | nil =>
    intro k tot del _
    simp [processLoop, sumChunksList, sumDelList]
  | cons f rest ih =>
    intro k tot del hok
    rcases hs : sendOk closeAt k with _ | _
    · rw [processLoop] at hok
      simp only [hs, Bool.false_eq_true, if_false] at hok
    · rw [processLoop] at hok ⊢
      simp only [hs, if_true] at hok ⊢
      rw [ih (k + 1) _ _ hok]
      rcases hres : (process_region_file f t).result with e | pr
      · simp [hres, sumChunksList, sumDelList, resChunks, resDeleted, List.map_cons]
      · simp [hres, sumChunksList, sumDelList, resChunks, resDeleted, List.map_cons]
        constructor
        · omega
        · omega

theorem processLoop_none_ok (t : Nat) :
    ∀ (order : List RegionFileModel) (k tot del : Nat),
      (processLoop t none order k tot del).2.1 = true := by
  intro order
  induction order with
  | nil => intro k tot del; rfl
  | cons f rest ih =>
    intro k tot del
    rw [processLoop]
    simp only [sendOk, if_true]
    exact ih (k + 1) _ _

/-- With a never-disconnecting consumer the loop delivers one
`ProcessedRegion` event per file, in order, and accumulates the totals of
the successful results. -/
theorem processLoop_none (t : Nat) (order : List RegionFileModel) (k tot del : Nat) :
    processLoop t none order k tot del =
      ((order.map fun f => ProcessingUpdate.ProcessedRegion (process_region_file f t).result),
       true, tot + sumChunksList t order, del + sumDelList t order) :=
  processLoop_ok_char t none order k tot del (processLoop_none_ok t order k tot del)

theorem processLoop_fail_lt (t : Nat) (closeAt : Option Nat) :
    ∀ (order : List RegionFileModel) (k tot del : Nat),
      (processLoop t closeAt order k tot del).2.1 = false →
      (processLoop t closeAt order k tot del).1.length < order.length := by
  intro order
  induction order with
  | nil =>
    intro k tot del hf
    rw [processLoop] at hf
    simp at hf
  | cons f rest ih =>
    intro k tot del hf
    rw [processLoop] at hf ⊢
    rcases hs : sendOk closeAt k with _ | _
    · simp only [hs, Bool.false_eq_true, if_false]
      simp
    · simp only [hs, if_true] at hf ⊢
      have := ih (k + 1) _ _ hf
      simp only [List.length_cons]
      omega

theorem processLoop_all_pr (t : Nat) (closeAt : Option Nat) :
    ∀ (order : List RegionFileModel) (k tot del : Nat),
      ∀ e ∈ (processLoop t closeAt order k tot del).1,
        ∃ r, e = ProcessingUpdate.ProcessedRegion r := by
  intro order
  induction order with
  | nil =>
    intro k tot del e he
    rw [processLoop] at he
    simp at he
  | cons f rest ih =>
    intro k tot del e he
    rw [processLoop] at he
    rcases hs : sendOk closeAt k with _ | _
    · simp only [hs, Bool.false_eq_true, if_false] at he
      simp at he
    · simp only [hs, if_true] at he
      rcases List.mem_cons.mp he with h | h
      · exact ⟨(process_region_file f t).result, h⟩
      · exact ih (k + 1) _ _ e h

theorem countP_isPR_startEvents (b : Bool) (total : Nat) :
    (startEvents b total).countP isPR = 0 := by
  rcases b with _ | _
  · simp [startEvents]
  · simp [startEvents, isPR]

theorem eventChunks_startEvents (b : Bool) (total : Nat) :
    sumChunks (startEvents b total) = 0 := by
  rcases b with _ | _
  · simp [startEvents, sumChunks]
  · simp [startEvents, sumChunks, eventChunks]

theorem eventDeleted_startEvents (b : Bool) (total : Nat) :
    sumDeleted (startEvents b total) = 0 := by
  rcases b with _ | _
  · simp [startEvents, sumDeleted]
  · simp [startEvents, sumDeleted, eventDeleted]

theorem sumChunks_append (l₁ l₂ : List ProcessingUpdate) :
    sumChunks (l₁ ++ l₂) = sumChunks l₁ + sumChunks l₂ := by
  simp [sumChunks, List.map_append]

theorem sumDeleted_append (l₁ l₂ : List ProcessingUpdate) :
    sumDeleted (l₁ ++ l₂) = sumDeleted l₁ + sumDeleted l₂ := by
  simp [sumDeleted, List.map_append]

theorem sumChunks_map_pr (t : Nat) (order : List RegionFileModel) :
    sumChunks (order.map fun f =>
      ProcessingUpdate.ProcessedRegion (process_region_file f t).result) =
      sumChunksList t order := by
  induction order with
  | nil => rfl
  | cons f rest ih =>
    simp only [List.map_cons, sumChunks, sumChunksList] at ih ⊢
    rw [List.sum_cons, List.sum_cons]
    rw [ih]
    rcases hres : (process_region_file f t).result with e | pr
    · simp [eventChunks, resChunks, hres]
    · simp [eventChunks, resChunks, hres]

theorem sumDeleted_map_pr (t : Nat) (order : List RegionFileModel) :
    sumDeleted (order.map fun f =>
      ProcessingUpdate.ProcessedRegion (process_region_file f t).result) =
      sumDelList t order := by
  induction order with
  | nil => rfl
  | cons f rest ih =>
    simp only [List.map_cons, sumDeleted, sumDelList] at ih ⊢
    rw [List.sum_cons, List.sum_cons]
    rw [ih]
    rcases hres : (process_region_file f t).result with e | pr
    · simp [eventDeleted, resDeleted, hres]
    · simp [eventDeleted, resDeleted, hres]

/-- With a never-disconnecting consumer the full protocol is delivered:
one `Starting` carrying the file count, then one `ProcessedRegion` event
per file in delivery order (its per-file `Result` as payload), then one
`Finished` carrying the accumulated totals. -/
theorem runThread_none (h : RunHandle) (config : Config) (dsa : Option Nat)
    (order : List RegionFileModel) (el : Nat) :
    runThread h config dsa ⟨order, none, el⟩ =
      ⟨ProcessingUpdate.Starting h.files.length ::
        ((order.map fun f => ProcessingUpdate.ProcessedRegion
          (process_region_file f (config.max_inhabited_time * 20)).result) ++
        [ProcessingUpdate.Finished ⟨el, h.size_before - (dsa.getD 0), h.files.length,
          sumChunksList (config.max_inhabited_time * 20) order,
          sumDelList (config.max_inhabited_time * 20) order⟩]),
       true⟩ := by
  rw [runThread]
  dsimp only
  rw [processLoop_none]
  simp [mkTrace, startEvents, sendOk]

theorem mkTrace_finished (h : RunHandle) (dsa : Option Nat) (s : Sched)
    (startEvs : List ProcessingUpdate) (out : List ProcessingUpdate × Bool × Nat × Nat) :
    (mkTrace h dsa s startEvs out).finished_attempted = out.2.1 := by
  simp only [mkTrace]
  rcases hok : out.2.1 with _ | _
  · rw [if_neg Bool.false_ne_true]
  · rw [if_pos rfl]

theorem mem_events_cases (h : RunHandle) (dsa : Option Nat) (s : Sched)
    (startEvs : List ProcessingUpdate) (out : List ProcessingUpdate × Bool × Nat × Nat)
    (e : ProcessingUpdate) (he : e ∈ (mkTrace h dsa s startEvs out).events) :
    e ∈ startEvs ∨ e ∈ out.1 ∨
      (out.2.1 = true ∧ e = ProcessingUpdate.Finished ⟨s.elapsed,
        h.size_before - (dsa.getD 0), h.files.length, out.2.2.1, out.2.2.2⟩) := by
  simp only [mkTrace] at he
  rcases hok : out.2.1 with _ | _
  · rw [hok, if_neg Bool.false_ne_true] at he
    rcases List.mem_append.mp he with h1 | h2
    · exact Or.inl h1
    · exact Or.inr (Or.inl h2)
  · rw [hok, if_pos rfl] at he
    rcases hsf : sendOk s.closeAt (startEvs.length + out.1.length) with _ | _
    · rw [hsf, if_neg Bool.false_ne_true, List.append_nil] at he
      rcases List.mem_append.mp he with h1 | h2
      · exact Or.inl h1
      · exact Or.inr (Or.inl h2)
    · rw [hsf, if_pos rfl] at he
      rcases List.mem_append.mp he with h12 | h3
      · rcases List.mem_append.mp h12 with h1 | h2
        · exact Or.inl h1
        · exact Or.inr (Or.inl h2)
      · simp at h3
        exact Or.inr (Or.inr ⟨rfl, h3⟩)

theorem mkTrace_head (h : RunHandle) (dsa : Option Nat) (s : Sched)
    (startEvs : List ProcessingUpdate) (out : List ProcessingUpdate × Bool × Nat × Nat)
    (total : Nat) (hdeliv : startEvs = [ProcessingUpdate.Starting total]) :
    (mkTrace h dsa s startEvs out).events.head? =
      some (ProcessingUpdate.Starting total) := by
  simp only [mkTrace]
  rcases hok : out.2.1 with _ | _
  · rw [if_neg Bool.false_ne_true, hdeliv]
    simp
  · rw [if_pos rfl, hdeliv]
    simp

theorem mkTrace_finished_mem (h : RunHandle) (dsa : Option Nat) (s : Sched)
    (startEvs : List ProcessingUpdate) (out : List ProcessingUpdate × Bool × Nat × Nat)
    (rep : Report)
    (hstart : ∀ r, ProcessingUpdate.Finished r ∉ startEvs)
    (hout : ∀ r, ProcessingUpdate.Finished r ∉ out.1)
    (hm : ProcessingUpdate.Finished rep ∈ (mkTrace h dsa s startEvs out).events) :
    out.2.1 = true ∧
    rep = ⟨s.elapsed, h.size_before - (dsa.getD 0), h.files.length,
      out.2.2.1, out.2.2.2⟩ ∧
    (mkTrace h dsa s startEvs out).events.getLast? =
      some (ProcessingUpdate.Finished rep) := by
  simp only [mkTrace] at hm ⊢
  rcases hok : out.2.1 with _ | _
  · rw [hok, if_neg Bool.false_ne_true] at hm
    exfalso
    rcases List.mem_append.mp hm with h1 | h2
    · exact hstart rep h1
    · exact hout rep h2
  · rw [hok, if_pos rfl] at hm
    rw [if_pos rfl]
    rcases hsf : sendOk s.closeAt (startEvs.length + out.1.length) with _ | _
    · rw [hsf, if_neg Bool.false_ne_true, List.append_nil] at hm
      exfalso
      rcases List.mem_append.mp hm with h1 | h2
      · exact hstart rep h1
      · exact hout rep h2
    · rw [hsf, if_pos rfl] at hm
      rw [if_pos rfl]
      have hrep : rep = ⟨s.elapsed, h.size_before - (dsa.getD 0), h.files.length,
          out.2.2.1, out.2.2.2⟩ := by
        rcases List.mem_append.mp hm with h12 | h3
        · exfalso
          rcases List.mem_append.mp h12 with h1 | h2
          · exact hstart rep h1
          · exact hout rep h2
        · simpa using h3
      refine ⟨rfl, hrep, ?_⟩
      rw [List.getLast?_concat, hrep]

theorem mkTrace_countPR (h : RunHandle) (dsa : Option Nat) (s : Sched)
    (startEvs : List ProcessingUpdate) (out : List ProcessingUpdate × Bool × Nat × Nat)
    (hstart : startEvs.countP isPR = 0)
    (hout : out.1.countP isPR = out.1.length) :
    (mkTrace h dsa s startEvs out).events.countP isPR = out.1.length := by
  simp only [mkTrace]
  rcases hok : out.2.1 with _ | _
  · rw [if_neg Bool.false_ne_true]
    dsimp only
    rw [List.countP_append, hstart, hout]
    omega
  · rw [if_pos rfl]
    rcases hsf : sendOk s.closeAt (startEvs.length + out.1.length) with _ | _
    · rw [if_neg Bool.false_ne_true]
      dsimp only
      rw [List.append_nil, List.countP_append, hstart, hout]
      omega
    · rw [if_pos rfl]
      dsimp only
      rw [List.countP_append, List.countP_append, hstart, hout]
      simp [isPR]

theorem mkTrace_sums (h : RunHandle) (dsa : Option Nat) (s : Sched)
    (startEvs : List ProcessingUpdate) (out : List ProcessingUpdate × Bool × Nat × Nat)
    (h1 : sumChunks startEvs = 0) (h2 : sumDeleted startEvs = 0) :
    sumChunks (mkTrace h dsa s startEvs out).events = sumChunks out.1 ∧
    sumDeleted (mkTrace h dsa s startEvs out).events = sumDeleted out.1 := by
  simp only [mkTrace]
  rcases hok : out.2.1 with _ | _
  · rw [if_neg Bool.false_ne_true]
    dsimp only
    rw [sumChunks_append, sumDeleted_append, h1, h2]
    constructor <;> omega
  · rw [if_pos rfl]
    rcases hsf : sendOk s.closeAt (startEvs.length + out.1.length) with _ | _
    · rw [if_neg Bool.false_ne_true]
      dsimp only
      rw [List.append_nil, sumChunks_append, sumDeleted_append, h1, h2]
      constructor <;> omega
    · rw [if_pos rfl]
      dsimp only
      rw [sumChunks_append, sumChunks_append, sumDeleted_append, sumDeleted_append, h1, h2]
      constructor
      · simp [sumChunks, eventChunks]
      · simp [sumDeleted, eventDeleted]

theorem startEvents_no_finished (b : Bool) (total : Nat) :
    ∀ r, ProcessingUpdate.Finished r ∉ startEvents b total := by
  intro r hr
  rcases b with _ | _
  · simp [startEvents] at hr
  · simp [startEvents] at hr

theorem processLoop_no_finished (t : Nat) (closeAt : Option Nat)
    (order : List RegionFileModel) (k tot del : Nat) :
    ∀ r, ProcessingUpdate.Finished r ∉ (processLoop t closeAt order k tot del).1 := by
  intro r hr
  obtain ⟨r', hr'⟩ := processLoop_all_pr t closeAt order k tot del _ hr
  simp at hr'

theorem runThread_finished_attempted (h : RunHandle) (config : Config) (dsa : Option Nat)
    (s : Sched) :
    (runThread h config dsa s).finished_attempted =
      (processLoop (config.max_inhabited_time * 20) s.closeAt s.order
        (if sendOk s.closeAt 0 then 1 else 0) 0 0).2.1 := by
  rw [runThread]
  exact mkTrace_finished _ _ _ _ _

theorem runThread_countPR (h : RunHandle) (config : Config) (dsa : Option Nat) (s : Sched) :
    (runThread h config dsa s).events.countP isPR =
      (processLoop (config.max_inhabited_time * 20) s.closeAt s.order
        (if sendOk s.closeAt 0 then 1 else 0) 0 0).1.length := by
  rw [runThread]
  refine mkTrace_countPR _ _ _ _ _ (countP_isPR_startEvents _ _) ?_
  refine List.countP_eq_length.mpr ?_
  intro e he
  obtain ⟨r, hr⟩ := processLoop_all_pr _ _ _ _ _ _ e he
  rw [hr]
  rfl

theorem runThread_starting_mem (h : RunHandle) (config : Config) (dsa : Option Nat)
    (s : Sched) (n : Nat)
    (hm : ProcessingUpdate.Starting n ∈ (runThread h config dsa s).events) :
    n = h.files.length ∧
    (runThread h config dsa s).events.head? =
      some (ProcessingUpdate.Starting h.files.length) := by
  rw [runThread] at hm ⊢
  rcases mem_events_cases _ _ _ _ _ _ hm with h1 | h2 | h3
  · have hb : sendOk s.closeAt 0 = true ∧ n = h.files.length := by
      rcases hb0 : sendOk s.closeAt 0 with _ | _
      · rw [hb0] at h1
        simp [startEvents] at h1
      · rw [hb0] at h1
        simp [startEvents] at h1
        exact ⟨rfl, h1⟩
    refine ⟨hb.2, ?_⟩
    exact mkTrace_head _ _ _ _ _ _ (by rw [hb.1]; rfl)
  · obtain ⟨r, hr⟩ := processLoop_all_pr _ _ _ _ _ _ _ h2
    exact absurd hr (by simp)
  · exact absurd h3.2 (by simp)

theorem runThread_finished_mem (h : RunHandle) (config : Config) (dsa : Option Nat)
    (s : Sched) (rep : Report)
    (hm : ProcessingUpdate.Finished rep ∈ (runThread h config dsa s).events) :
    (processLoop (config.max_inhabited_time * 20) s.closeAt s.order
      (if sendOk s.closeAt 0 then 1 else 0) 0 0).2.1 = true ∧
    rep = ⟨s.elapsed, h.size_before - (dsa.getD 0), h.files.length,
      (processLoop (config.max_inhabited_time * 20) s.closeAt s.order
        (if sendOk s.closeAt 0 then 1 else 0) 0 0).2.2.1,
      (processLoop (config.max_inhabited_time * 20) s.closeAt s.order
        (if sendOk s.closeAt 0 then 1 else 0) 0 0).2.2.2⟩ ∧
    (runThread h config dsa s).events.getLast? =
      some (ProcessingUpdate.Finished rep) := by
  rw [runThread] at hm ⊢
  exact mkTrace_finished_mem _ _ _ _ _ _ (startEvents_no_finished _ _)
    (processLoop_no_finished _ _ _ _ _ _) hm

theorem runThread_sums (h : RunHandle) (config : Config) (dsa : Option Nat) (s : Sched) :
    sumChunks (runThread h config dsa s).events =
      sumChunks (processLoop (config.max_inhabited_time * 20) s.closeAt s.order
        (if sendOk s.closeAt 0 then 1 else 0) 0 0).1 ∧
    sumDeleted (runThread h config dsa s).events =
      sumDeleted (processLoop (config.max_inhabited_time * 20) s.closeAt s.order
        (if sendOk s.closeAt 0 then 1 else 0) 0 0).1 := by
  rw [runThread]
  exact mkTrace_sums _ _ _ _ _ (eventChunks_startEvents _ _) (eventDeleted_startEvents _ _)

/-! ### Facts about the concrete instances -/

theorem fA_no_bad : ∀ p ∈ slotOrder, ((fA).slots p).isBad = false := by
  intro p _
  show ((if p = (0, 0) then SlotContent.populated (some ⟨5⟩)
    else if p = (0, 1) then SlotContent.populated (some ⟨6⟩)
    else SlotContent.empty)).isBad = false
  by_cases h1 : p = (0, 0)
  · rw [if_pos h1]
    rfl
  · rw [if_neg h1]
    by_cases h2 : p = (0, 1)
    · rw [if_pos h2]
      rfl
    · rw [if_neg h2]
      rfl

set_option maxRecDepth 4000 in
theorem fA_result : (process_region_file fA 100).result = Except.ok ⟨3, 4, 2, 1⟩ := by
  rw [process_clean_char fA 100 rfl rfl fA_no_bad]
  have h1 : slotOrder.countP (fun p => (fA.slots p).isPopSome) = 2 := by decide
  have h2 : slotOrder.countP (fun p => removable 100 (fA.slots p)) = 1 := by decide
  show Except.ok ⟨3, 4, slotOrder.countP (fun p => (fA.slots p).isPopSome),
    slotOrder.countP (fun p => removable 100 (fA.slots p))⟩ =
    Except.ok (ProcessedRegion.mk 3 4 2 1)
  rw [h1, h2]

theorem c2file_no_bad : ∀ p ∈ slotOrder, ((c2file).slots p).isBad = false := by
  intro p _
  show ((if p = (0, 0) then SlotContent.populated (some ⟨20⟩)
    else SlotContent.empty)).isBad = false
  by_cases h1 : p = (0, 0)
  · rw [if_pos h1]
    rfl
  · rw [if_neg h1]
    rfl

set_option maxRecDepth 4000 in
theorem c2file_result :
    (process_region_file c2file (1 * 20)).result = Except.ok ⟨0, 0, 1, 0⟩ := by
  rw [process_clean_char c2file (1 * 20) rfl rfl c2file_no_bad]
  have h1 : slotOrder.countP (fun p => (c2file.slots p).isPopSome) = 1 := by decide
  have h2 : slotOrder.countP (fun p => removable (1 * 20) (c2file.slots p)) = 0 := by decide
  show Except.ok ⟨0, 0, slotOrder.countP (fun p => (c2file.slots p).isPopSome),
    slotOrder.countP (fun p => removable (1 * 20) (c2file.slots p))⟩ =
    Except.ok (ProcessedRegion.mk 0 0 1 0)
  rw [h1, h2]

/-! ### The claims -/

/-- C1: in a successfully processed region file, a populated (and, the run
having succeeded, necessarily successfully decoded) slot is removed iff its
decoded presence time is at most the effective threshold
(`man_inhabited_time / 20`): a chunk exactly at the threshold is deleted
and one a single unit above is kept (the `↔` below at `c.inhabited_time =
effective_threshold t` resp. `effective_threshold t + 1`); the removed
count equals the number of populated slots satisfying the inequality and
the examined count equals the number of populated slots. -/
theorem c1_inclusive_threshold (f : RegionFileModel) (t : Nat) (pr : ProcessedRegion)
    (h : (process_region_file f t).result = Except.ok pr) :
    pr.total_chunks = slotOrder.countP (fun p => (f.slots p).isPop) ∧
    pr.deleted_chunks = slotOrder.countP (fun p => removable t (f.slots p)) ∧
    ∀ p ∈ slotOrder, ∀ c, f.slots p = SlotContent.populated (some c) →
      ((process_region_file f t).slots p = SlotContent.empty ↔
        c.inhabited_time ≤ effective_threshold t) := by
  obtain ⟨ho, hpk, hfe, hnb, hpr, hslots, htr⟩ := process_ok_inv f t pr h
  refine ⟨?_, ?_, ?_⟩
  · rw [hpr]
    exact countP_congr_mem fun p hpm => isPopSome_eq_isPop_of_not_bad (hnb p hpm)
  · rw [hpr]
  · intro p hpm c hc
    rw [hslots, sweepSlots_eq_empty_iff hpm, hc]
    simp [removable, effective_threshold]

/-- Witness for C1: the two-chunk file `fA` (presence times 5 and 6)
processed with threshold parameter 100 (effective threshold 5) examines 2
chunks and deletes 1 — the boundary chunk at 5 goes, the one at 6 stays. -/
theorem c1_inclusive_threshold_witness :
    (ProcessedRegion.mk 3 4 2 1).total_chunks =
      slotOrder.countP (fun p => (fA.slots p).isPop) ∧
    (ProcessedRegion.mk 3 4 2 1).deleted_chunks =
      slotOrder.countP (fun p => removable 100 (fA.slots p)) ∧
    ∀ p ∈ slotOrder, ∀ c, fA.slots p = SlotContent.populated (some c) →
      ((process_region_file fA 100).slots p = SlotContent.empty ↔
        c.inhabited_time ≤ effective_threshold 100) :=
  c1_inclusive_threshold fA 100 ⟨3, 4, 2, 1⟩ fA_result

/-- C2 (code evidence): with `max_inhabited_time = 1` (one second per the
CLI documentation) a chunk whose `InhabitedTime` is 20 ticks (exactly one
second) must, per the claim, be removed (20 ≤ 20·1); the code instead
passes `max_inhabited_time * 20` and divides it by 20 again inside the
comparison, so the run examines the chunk but deletes nothing. -/
theorem c2_scale_factor_code_behavior :
    (20 : Nat) ≤ 20 * (Config.mk 1 4).max_inhabited_time ∧
    c2file.slots (0, 0) = SlotContent.populated (some ⟨20⟩) ∧
    (process_region_file c2file ((Config.mk 1 4).max_inhabited_time * 20)).result =
      Except.ok ⟨0, 0, 1, 0⟩ := by
  refine ⟨by decide, rfl, ?_⟩
  show (process_region_file c2file (1 * 20)).result = _
  exact c2file_result

/-- C6: if the configured world root folder does not exist, `execute`
fails synchronously with the world-not-found error before any processing —
the environment (including the global pool flag) is untouched and no run
handle, hence no event stream, is produced. -/
theorem c6_world_not_found (env : Env) (config : Config)
    (h : env.world_exists = false) :
    execute env config = (Except.error Error.WorldFolderNotFound, env) := by
  obtain ⟨we, pb, cr, dsb, dsa⟩ := env
  dsimp only at h
  subst h
  rfl

/-- Witness for C6: a concrete environment with a missing world folder. -/
theorem c6_world_not_found_witness :
    execute envMissing cfgW = (Except.error Error.WorldFolderNotFound, envMissing) :=
  c6_world_not_found envMissing cfgW rfl

/-- C8: re-running compaction (same threshold) on the file left behind by a
successful run deletes nothing: every chunk still populated after the first
run has a presence time strictly above the effective threshold. -/
theorem c8_idempotent (f : RegionFileModel) (t : Nat) (pr : ProcessedRegion)
    (h : (process_region_file f t).result = Except.ok pr) :
    ∃ pr2, (process_region_file (compacted f t) t).result = Except.ok pr2 ∧
      pr2.deleted_chunks = 0 := by
  obtain ⟨ho, hpk, hfe, hnb, hpr, hslots, htr⟩ := process_ok_inv f t pr h
  have hcs : (compacted f t).slots = sweepSlots t f.slots slotOrder := hslots
  have hnb2 : ∀ p ∈ slotOrder, ((compacted f t).slots p).isBad = false := by
    intro p hpm
    rw [hcs]
    show ((if p ∈ slotOrder ∧ removable t (f.slots p) = true then SlotContent.empty
      else f.slots p)).isBad = false
    by_cases hrem : removable t (f.slots p) = true
    · rw [if_pos ⟨hpm, hrem⟩]
      rfl
    · rw [if_neg fun hc => hrem hc.2]
      exact hnb p hpm
  have hchar := process_clean_char (compacted f t) t rfl rfl hnb2
  rw [hchar]
  refine ⟨⟨(compacted f t).x, (compacted f t).y,
    slotOrder.countP (fun p => (((compacted f t)).slots p).isPopSome),
    slotOrder.countP (fun p => removable t (((compacted f t)).slots p))⟩, rfl, ?_⟩
  show slotOrder.countP (fun p => removable t ((compacted f t).slots p)) = 0
  refine List.countP_eq_zero.mpr ?_
  intro p hpm
  rw [hcs]
  show ¬ (removable t ((if p ∈ slotOrder ∧ removable t (f.slots p) = true
    then SlotContent.empty else f.slots p)) = true)
  by_cases hrem : removable t (f.slots p) = true
  · rw [if_pos ⟨hpm, hrem⟩]
    simp [removable]
  · rw [if_neg fun hc => hrem hc.2]
    exact hrem

/-- Witness for C8: re-running on the compacted `fA` (threshold parameter
100) deletes nothing on the second run. -/
theorem c8_idempotent_witness :
    ∃ pr2, (process_region_file (compacted fA 100) 100).result = Except.ok pr2 ∧
      pr2.deleted_chunks = 0 :=
  c8_idempotent fA 100 ⟨3, 4, 2, 1⟩ fA_result

/-- C9: `execute` unconditionally builds the process-global rayon thread
pool, so after any successful call, every further `execute` call in the
same process — with any configuration, even though the world folder still
exists — fails with the thread-pool construction error. -/
theorem c9_single_use (env env2 : Env) (config config2 : Config) (r : RunHandle)
    (hx : execute env config = (Except.ok r, env2)) :
    (execute env2 config2).1 = Except.error Error.RayonError := by
  obtain ⟨we, pb, cr, dsb, dsa⟩ := env
  rcases we with _ | _
  · rw [show execute ⟨false, pb, cr, dsb, dsa⟩ config =
        (Except.error Error.WorldFolderNotFound, ⟨false, pb, cr, dsb, dsa⟩) from rfl] at hx
    injection hx with h1 h2
    exact Except.noConfusion h1
  · rcases pb with _ | _
    · rcases cr with ce | files
      · rw [show execute ⟨true, false, Except.error ce, dsb, dsa⟩ config =
            (Except.error Error.IOError, ⟨true, true, Except.error ce, dsb, dsa⟩) from rfl] at hx
        injection hx with h1 h2
        exact Except.noConfusion h1
      · rcases dsb with _ | sb
        · rw [show execute ⟨true, false, Except.ok files, none, dsa⟩ config =
              (Except.error Error.IOError, ⟨true, true, Except.ok files, none, dsa⟩)
              from rfl] at hx
          injection hx with h1 h2
          exact Except.noConfusion h1
        · rw [show execute ⟨true, false, Except.ok files, some sb, dsa⟩ config =
              (Except.ok ⟨files, sb⟩, ⟨true, true, Except.ok files, some sb, dsa⟩)
              from rfl] at hx
          injection hx with h1 h2
          rw [← h2]
          rfl
    · rw [show execute ⟨true, true, cr, dsb, dsa⟩ config =
          (Except.error Error.RayonError, ⟨true, true, cr, dsb, dsa⟩) from rfl] at hx
      injection hx with h1 h2
      exact Except.noConfusion h1

/-- Witness for C9: after the first successful call on a healthy
environment, the very next call fails with the rayon pool error. -/
theorem c9_single_use_witness :
    (execute ⟨true, true, Except.ok [], some 0, some 0⟩ cfgW).1 =
      Except.error Error.RayonError :=
  c9_single_use envOk ⟨true, true, Except.ok [], some 0, some 0⟩ cfgW cfgW ⟨[], 0⟩ rfl

/-- C10: per-file processing is not atomic on error.  When a populated
slot's payload fails to decode partway through a file, the file's result is
the NBT error (delivered inside its `ProcessedRegion` event), the
truncation step never runs, every removable slot visited before the first
failing slot stays removed (no rollback), and the file contributes nothing
to the run totals. -/
theorem c10_no_rollback (f : RegionFileModel) (config : Config) (sb : Nat)
    (dsa : Option Nat) (el : Nat)
    (ho : f.openOk = true) (hpk : f.parseOk = true)
    (hbad : ∃ p ∈ slotOrder, (f.slots p).isBad = true) :
    (process_region_file f (config.max_inhabited_time * 20)).result =
      Except.error RegionProcessingError.NBTError ∧
    (process_region_file f (config.max_inhabited_time * 20)).truncated = false ∧
    (∀ p ∈ slotOrder.takeWhile fun q => !(f.slots q).isBad,
      removable (config.max_inhabited_time * 20) (f.slots p) = true →
      (process_region_file f (config.max_inhabited_time * 20)).slots p =
        SlotContent.empty) ∧
    (∃ rep, (runThread ⟨[f], sb⟩ config dsa ⟨[f], none, el⟩).events =
        [ProcessingUpdate.Starting 1,
         ProcessingUpdate.ProcessedRegion (Except.error RegionProcessingError.NBTError),
         ProcessingUpdate.Finished rep] ∧
      rep.total_chunks = 0 ∧ rep.total_deleted_chunks = 0) := by
  have hchar := process_bad_char f (config.max_inhabited_time * 20) ho hpk hbad
  have hres : (process_region_file f (config.max_inhabited_time * 20)).result =
      Except.error RegionProcessingError.NBTError := by rw [hchar]
  refine ⟨hres, by rw [hchar], ?_, ?_⟩
  · intro p hpm hrem
    rw [hchar]
    show (if p ∈ (slotOrder.takeWhile fun q => !(f.slots q).isBad) ∧
        removable (config.max_inhabited_time * 20) (f.slots p) = true
      then SlotContent.empty else f.slots p) = SlotContent.empty
    rw [if_pos ⟨hpm, hrem⟩]
  · have hsc : sumChunksList (config.max_inhabited_time * 20) [f] = 0 := by
      simp [sumChunksList, resChunks, hres]
    have hsd : sumDelList (config.max_inhabited_time * 20) [f] = 0 := by
      simp [sumDelList, resDeleted, hres]
    rw [runThread_none]
    simp only [List.map_cons, List.map_nil]
    rw [hres, hsc, hsd]
    exact ⟨⟨el, sb - dsa.getD 0, 1, 0, 0⟩, rfl, rfl, rfl⟩

/-- Witness for C10: `fBad` has a removable chunk at `(0,0)` (presence
time 0) visited before the undecodable slot at `(0,5)`. -/
theorem c10_no_rollback_witness :
    (process_region_file fBad (cfgW.max_inhabited_time * 20)).result =
      Except.error RegionProcessingError.NBTError ∧
    (process_region_file fBad (cfgW.max_inhabited_time * 20)).truncated = false ∧
    (∀ p ∈ slotOrder.takeWhile fun q => !(fBad.slots q).isBad,
      removable (cfgW.max_inhabited_time * 20) (fBad.slots p) = true →
      (process_region_file fBad (cfgW.max_inhabited_time * 20)).slots p =
        SlotContent.empty) ∧
    (∃ rep, (runThread ⟨[fBad], 0⟩ cfgW (some 0) ⟨[fBad], none, 0⟩).events =
        [ProcessingUpdate.Starting 1,
         ProcessingUpdate.ProcessedRegion (Except.error RegionProcessingError.NBTError),
         ProcessingUpdate.Finished rep] ∧
      rep.total_chunks = 0 ∧ rep.total_deleted_chunks = 0) :=
  c10_no_rollback fBad cfgW 0 (some 0) 0 rfl rfl ⟨(0, 5), by decide, rfl⟩

/-- C7 counterexample: in an environment where the world exists, the pool
is free and enumeration succeeds, a failing pre-run `dir_size` sample makes
`execute` itself fail with an I/O error — the run does not proceed, contrary
to the claim that directory-size sampling failures never fail the run (the
`let size_before = dir_size(..)?` in the source propagates the error). -/
theorem c7_sampling_counterexample :
    (execute envSampleFail cfgW).1 = Except.error Error.IOError := rfl

/-- C7 amended: only the post-run `dir_size` failure is tolerated — the run
then still completes, with the freed-space figure degraded to the value
computed as though the post-run size were zero (`unwrap_or(0)`), i.e. the
whole pre-run size; a pre-run sampling failure instead aborts `execute`
with an I/O error before any processing. -/
theorem c7_amended_sampling :
    (∀ (env : Env) (config : Config) (files : List RegionFileModel),
      env.world_exists = true → env.pool_built = false →
      env.collect_result = Except.ok files → env.dir_size_before = none →
      (execute env config).1 = Except.error Error.IOError) ∧
    (∀ (h : RunHandle) (config : Config) (order : List RegionFileModel) (el : Nat),
      ∃ rep, ProcessingUpdate.Finished rep ∈
          (runThread h config none ⟨order, none, el⟩).events ∧
        rep.total_freed_space = h.size_before ∧
        (runThread h config none ⟨order, none, el⟩).finished_attempted = true) := by
  constructor
  · intro env config files hw hpb hcr hdb
    obtain ⟨we, pb, cr, dsb, dsa⟩ := env
    dsimp only at hw hpb hcr hdb
    subst hw
    subst hpb
    subst hcr
    subst hdb
    rfl
  · intro h config order el
    rw [runThread_none]
    refine ⟨⟨el, h.size_before - (Option.getD none 0), h.files.length,
      sumChunksList (config.max_inhabited_time * 20) order,
      sumDelList (config.max_inhabited_time * 20) order⟩, ?_, ?_, rfl⟩
    · exact List.mem_cons_of_mem _ (List.mem_append_right _ (List.mem_singleton.mpr rfl))
    · show h.size_before - (Option.getD none 0) = h.size_before
      simp

/-- Witness for the amended C7: the failing pre-run sample aborts the run
on `envSampleFail`; with a failing post-run sample a run over zero files
still finishes and reports the whole pre-run size (7) as freed. -/
theorem c7_amended_sampling_witness :
    (execute envSampleFail cfgW).1 = Except.error Error.IOError ∧
    (∃ rep, ProcessingUpdate.Finished rep ∈
        (runThread ⟨[], 7⟩ cfgW none ⟨[], none, 0⟩).events ∧
      rep.total_freed_space = 7 ∧
      (runThread ⟨[], 7⟩ cfgW none ⟨[], none, 0⟩).finished_attempted = true) :=
  ⟨c7_amended_sampling.1 envSampleFail cfgW [] rfl rfl rfl rfl,
   c7_amended_sampling.2 ⟨[], 7⟩ cfgW [] 0⟩

/-- C3: the event protocol of one run, for any worker delivery order
(`order`, a permutation of the input files) and any consumer-disconnect
point.  (1) When the consumer never disconnects, the delivered trace is
exactly one `Starting` (carrying the input file count) first, one
`ProcessedRegion` per input file, and one `Finished` last.  (2) In general
the `Finished` event is emitted (the worker reaches the final send) iff no
worker observed cancellation, i.e. iff every input file's `ProcessedRegion`
event was delivered.  (3) Any delivered `Starting` carries the total input
file count and is the first event.  (4) Any delivered `Finished` is the
last event. -/
theorem c3_event_protocol (files order : List RegionFileModel) (hperm : files.Perm order)
    (config : Config) (sb : Nat) (dsa : Option Nat) (closeAt : Option Nat) (el : Nat) :
    (closeAt = none →
      ∃ rep, (runThread ⟨files, sb⟩ config dsa ⟨order, closeAt, el⟩).events =
        ProcessingUpdate.Starting files.length ::
          ((order.map fun f => ProcessingUpdate.ProcessedRegion
            (process_region_file f (config.max_inhabited_time * 20)).result) ++
          [ProcessingUpdate.Finished rep])) ∧
    ((runThread ⟨files, sb⟩ config dsa ⟨order, closeAt, el⟩).finished_attempted = true ↔
      (runThread ⟨files, sb⟩ config dsa ⟨order, closeAt, el⟩).events.countP isPR =
        files.length) ∧
    (∀ n, ProcessingUpdate.Starting n ∈
        (runThread ⟨files, sb⟩ config dsa ⟨order, closeAt, el⟩).events →
      n = files.length ∧
      (runThread ⟨files, sb⟩ config dsa ⟨order, closeAt, el⟩).events.head? =
        some (ProcessingUpdate.Starting files.length)) ∧
    (∀ rep, ProcessingUpdate.Finished rep ∈
        (runThread ⟨files, sb⟩ config dsa ⟨order, closeAt, el⟩).events →
      (runThread ⟨files, sb⟩ config dsa ⟨order, closeAt, el⟩).events.getLast? =
        some (ProcessingUpdate.Finished rep)) := by
  refine ⟨?_, ?_, ?_, ?_⟩
  · intro hc
    subst hc
    refine ⟨⟨el, sb - dsa.getD 0, files.length,
      sumChunksList (config.max_inhabited_time * 20) order,
      sumDelList (config.max_inhabited_time * 20) order⟩, ?_⟩
    rw [runThread_none]
  · rw [runThread_finished_attempted, runThread_countPR]
    dsimp only
    have hlen := hperm.length_eq
    rcases hok : (processLoop (config.max_inhabited_time * 20) closeAt order
        (if sendOk closeAt 0 then 1 else 0) 0 0).2.1 with _ | _
    · have hlt := processLoop_fail_lt (config.max_inhabited_time * 20) closeAt order
        (if sendOk closeAt 0 then 1 else 0) 0 0 hok
      constructor
      · intro hcon
        exact absurd hcon (by simp)
      · intro hcnt
        exfalso
        omega
    · have hchar := processLoop_ok_char (config.max_inhabited_time * 20) closeAt order
        (if sendOk closeAt 0 then 1 else 0) 0 0 hok
      rw [hchar]
      simp [List.length_map, hlen]
  · intro n hm
    exact runThread_starting_mem ⟨files, sb⟩ config dsa ⟨order, closeAt, el⟩ n hm
  · intro rep hm
    exact (runThread_finished_mem ⟨files, sb⟩ config dsa ⟨order, closeAt, el⟩ rep hm).2.2

/-- Witness for C3 on a one-file run with a never-disconnecting consumer. -/
theorem c3_event_protocol_witness :
    ((none : Option Nat) = none →
      ∃ rep, (runThread ⟨[fA], 10⟩ cfgW (some 4) ⟨[fA], none, 0⟩).events =
        ProcessingUpdate.Starting [fA].length ::
          (([fA].map fun f => ProcessingUpdate.ProcessedRegion
            (process_region_file f (cfgW.max_inhabited_time * 20)).result) ++
          [ProcessingUpdate.Finished rep])) ∧
    ((runThread ⟨[fA], 10⟩ cfgW (some 4) ⟨[fA], none, 0⟩).finished_attempted = true ↔
      (runThread ⟨[fA], 10⟩ cfgW (some 4) ⟨[fA], none, 0⟩).events.countP isPR =
        [fA].length) ∧
    (∀ n, ProcessingUpdate.Starting n ∈
        (runThread ⟨[fA], 10⟩ cfgW (some 4) ⟨[fA], none, 0⟩).events →
      n = [fA].length ∧
      (runThread ⟨[fA], 10⟩ cfgW (some 4) ⟨[fA], none, 0⟩).events.head? =
        some (ProcessingUpdate.Starting [fA].length)) ∧
    (∀ rep, ProcessingUpdate.Finished rep ∈
        (runThread ⟨[fA], 10⟩ cfgW (some 4) ⟨[fA], none, 0⟩).events →
      (runThread ⟨[fA], 10⟩ cfgW (some 4) ⟨[fA], none, 0⟩).events.getLast? =
        some (ProcessingUpdate.Finished rep)) :=
  c3_event_protocol [fA] [fA] (List.Perm.refl _) cfgW 10 (some 4) none 0

/-- C4: every per-file failure is delivered as a value inside that file's
`ProcessedRegion` event and aborts nothing else: in an uncancelled run
every input file (failed or not) gets its event, a `Finished` report is
still emitted, and its totals sum only the successful results — in
particular they are zero when every file failed. -/
theorem c4_error_isolation (files order : List RegionFileModel) (hperm : files.Perm order)
    (config : Config) (sb : Nat) (dsa : Option Nat) (el : Nat) :
    (∀ f ∈ files, ProcessingUpdate.ProcessedRegion
        (process_region_file f (config.max_inhabited_time * 20)).result ∈
        (runThread ⟨files, sb⟩ config dsa ⟨order, none, el⟩).events) ∧
    (∃ rep, ProcessingUpdate.Finished rep ∈
        (runThread ⟨files, sb⟩ config dsa ⟨order, none, el⟩).events ∧
      rep.total_chunks = sumChunksList (config.max_inhabited_time * 20) order ∧
      rep.total_deleted_chunks = sumDelList (config.max_inhabited_time * 20) order ∧
      ((∀ f ∈ order, ∃ e,
          (process_region_file f (config.max_inhabited_time * 20)).result =
            Except.error e) →
        rep.total_chunks = 0 ∧ rep.total_deleted_chunks = 0)) := by
  constructor
  · intro f hf
    rw [runThread_none]
    exact List.mem_cons_of_mem _ (List.mem_append_left _
      (List.mem_map_of_mem _ (hperm.mem_iff.mp hf)))
  · rw [runThread_none]
    refine ⟨⟨el, sb - dsa.getD 0, files.length,
      sumChunksList (config.max_inhabited_time * 20) order,
      sumDelList (config.max_inhabited_time * 20) order⟩,
      List.mem_cons_of_mem _ (List.mem_append_right _ (List.mem_singleton.mpr rfl)),
      rfl, rfl, ?_⟩
    intro hall
    constructor
    · refine List.sum_eq_zero ?_
      intro x hx
      obtain ⟨f, hf, hfx⟩ := List.mem_map.mp hx
      obtain ⟨e, he⟩ := hall f hf
      rw [← hfx]
      simp [resChunks, he]
    · refine List.sum_eq_zero ?_
      intro x hx
      obtain ⟨f, hf, hfx⟩ := List.mem_map.mp hx
      obtain ⟨e, he⟩ := hall f hf
      rw [← hfx]
      simp [resDeleted, he]

/-- Witness for C4 on a two-file run where the second file fails to open. -/
theorem c4_error_isolation_witness :
    (∀ f ∈ [fA, fErr], ProcessingUpdate.ProcessedRegion
        (process_region_file f (cfgW.max_inhabited_time * 20)).result ∈
        (runThread ⟨[fA, fErr], 10⟩ cfgW (some 4) ⟨[fA, fErr], none, 0⟩).events) ∧
    (∃ rep, ProcessingUpdate.Finished rep ∈
        (runThread ⟨[fA, fErr], 10⟩ cfgW (some 4) ⟨[fA, fErr], none, 0⟩).events ∧
      rep.total_chunks = sumChunksList (cfgW.max_inhabited_time * 20) [fA, fErr] ∧
      rep.total_deleted_chunks = sumDelList (cfgW.max_inhabited_time * 20) [fA, fErr] ∧
      ((∀ f ∈ [fA, fErr], ∃ e,
          (process_region_file f (cfgW.max_inhabited_time * 20)).result =
            Except.error e) →
        rep.total_chunks = 0 ∧ rep.total_deleted_chunks = 0)) :=
  c4_error_isolation [fA, fErr] [fA, fErr] (List.Perm.refl _) cfgW 10 (some 4) 0

/-- C5: whenever a `Finished` report is delivered — under any worker
delivery order and any disconnect point — its `total_chunks` and
`total_deleted_chunks` equal the sums of the per-region counts carried in
the successful `ProcessedRegion` events of the trace: no double counting
and no lost updates. -/
theorem c5_aggregation (files order : List RegionFileModel) (config : Config)
    (sb : Nat) (dsa : Option Nat) (closeAt : Option Nat) (el : Nat) (rep : Report)
    (hm : ProcessingUpdate.Finished rep ∈
      (runThread ⟨files, sb⟩ config dsa ⟨order, closeAt, el⟩).events) :
    rep.total_chunks =
      sumChunks (runThread ⟨files, sb⟩ config dsa ⟨order, closeAt, el⟩).events ∧
    rep.total_deleted_chunks =
      sumDeleted (runThread ⟨files, sb⟩ config dsa ⟨order, closeAt, el⟩).events := by
  obtain ⟨hok, hrep, hlast⟩ :=
    runThread_finished_mem ⟨files, sb⟩ config dsa ⟨order, closeAt, el⟩ rep hm
  have hsums := runThread_sums ⟨files, sb⟩ config dsa ⟨order, closeAt, el⟩
  have hchar := processLoop_ok_char _ _ _ _ _ _ hok
  rw [hsums.1, hsums.2, hrep, hchar]
  dsimp only
  constructor
  · rw [sumChunks_map_pr]
    omega
  · rw [sumDeleted_map_pr]
    omega

/-- Witness for C5 on a one-file run: the delivered report `⟨0,6,1,2,1⟩`
indeed carries the sums over the trace's successful events. -/
theorem c5_aggregation_witness :
    (Report.mk 0 6 1 2 1).total_chunks =
      sumChunks (runThread ⟨[fA], 10⟩ cfgW (some 4) ⟨[fA], none, 0⟩).events ∧
    (Report.mk 0 6 1 2 1).total_deleted_chunks =
      sumDeleted (runThread ⟨[fA], 10⟩ cfgW (some 4) ⟨[fA], none, 0⟩).events :=
  c5_aggregation [fA] [fA] cfgW 10 (some 4) none 0 ⟨0, 6, 1, 2, 1⟩ (by
    rw [runThread_none]
    refine List.mem_cons_of_mem _ (List.mem_append_right _ ?_)
    have hsc : sumChunksList (cfgW.max_inhabited_time * 20) [fA] = 2 := by
      show sumChunksList 100 [fA] = 2
      simp [sumChunksList, resChunks, fA_result]
    have hsd : sumDelList (cfgW.max_inhabited_time * 20) [fA] = 1 := by
      show sumDelList 100 [fA] = 1
      simp [sumDelList, resDeleted, fA_result]
    rw [hsc, hsd]
    exact List.mem_singleton.mpr rfl)

end Lessanvil
